import Mathlib

/-!
Shallow embedding of `src/dist/lib/aiModelLoader.js` (class `AIModelLoader`).

Modelling conventions:
* `Map<string, ModelCacheEntry>` is an insertion-ordered association list
  `List (String × Entry)`; `Map.has/get` is `lookupE`, in-place mutation of a
  live entry object is `modifyE` (replace the value at the key, keep position).
* Resources (loaded models) are identified by `Nat` ids; resources returned by
  a constructor are object instances, hence truthy, so `entry.model` is
  `Option Nat` and JS truthiness of `entry.model` is `Option.isSome`.
* A model configuration (`AIModelConfig`) is its `name`, an id `ctorId` for
  the identity of its `loadModel` function, and `hasLoad` for
  `typeof config.loadModel === 'function'`.
* The asynchronous constructor is external code; the value it settles with is
  passed to each operation as an explicit oracle argument
  `out : Except Nat Nat` (`.ok r` = resolves with resource `r`,
  `.error e` = rejects with error `e`).
* Timestamps (`Date.now()`) are `Nat` arguments supplied by the caller.
* The unused fields `loadingQueue` and `loadingPromises` of the source class
  are omitted; the source field `isInitialized` is called `isInit` here, and
  the trivial `async initialize()` method (which only sets that flag) is not
  modelled since no claim mentions it.
* `loadModel` below is the *atomic* semantics: the whole `async loadModel`
  call run to completion with no interleaved operation (the constructor
  settles before anything else runs).  The cooperative fine-grained
  semantics, with a suspension point at each `await`, is modelled separately
  further down (`segA`/`segB`/`segC`, `Sys`, `runEvs`).
-/

/-- `ModelLoadingStatus` from the source. -/
inductive Status where
  | idle
  | loading
  | loaded
  | error
deriving DecidableEq, Repr

/-- `AIModelConfig`: the name, the identity of the `loadModel` function, and
whether `loadModel` is actually a function. -/
structure Config where
  name : String
  ctorId : Nat
  hasLoad : Bool
deriving DecidableEq, Repr

/-- `ModelCacheEntry` from the source: `model`, `status`, `lastUsed`,
`loadPromise` (an `Option` of a promise id) and the stored `config`. -/
structure Entry where
  model : Option Nat
  status : Status
  lastUsed : Nat
  loadPromise : Option Nat
  config : Option Config
deriving DecidableEq, Repr

/-- The mutable state of one `AIModelLoader` instance. -/
structure LoaderState where
  cache : List (String × Entry)
  isInit : Bool
  maxCacheSize : Nat
  cacheTtl : Nat
deriving DecidableEq, Repr

/-- `Map.get`: the entry stored under a key (first occurrence). -/
def lookupE : List (String × Entry) → String → Option Entry
  | [], _ => none
  | (m, e) :: rest, n => if m = n then some e else lookupE rest n

/-- In-place mutation of the live entry object stored under a key:
replace the value at the first occurrence of the key. -/
def modifyE (f : Entry → Entry) : List (String × Entry) → String → List (String × Entry)
  | [], _ => []
  | (m, e) :: rest, n => if m = n then (m, f e) :: rest else (m, e) :: modifyE f rest n

/-- `modelCache.has(name)`. -/
def hasEntry (L : LoaderState) (n : String) : Bool :=
  (lookupE L.cache n).isSome

/-- Mutate the entry stored under `n` (no-op when absent). -/
def modifyEntry (L : LoaderState) (n : String) (f : Entry → Entry) : LoaderState :=
  { L with cache := modifyE f L.cache n }

/-- `options.maxCacheSize || 5` / `options.cacheTtl || default`: JS `||`
falls back to the default on a missing or falsy (here: zero) value. -/
def orDefault (v : Option Nat) (d : Nat) : Nat :=
  match v with
  | some n => if n = 0 then d else n
  | none => d

/-- `new AIModelLoader(options)`. -/
def mkLoader (maxCacheSize cacheTtl : Option Nat) : LoaderState :=
  { cache := []
    isInit := false
    maxCacheSize := orDefault maxCacheSize 5
    cacheTtl := orDefault cacheTtl (30 * 60 * 1000) }

/-- `registerModel(config)`: a duplicate name is a warning and a no-op;
otherwise a fresh `Idle` entry is appended. -/
def registerModel (L : LoaderState) (c : Config) (now : Nat) : LoaderState :=
  if hasEntry L c.name then L
  else
    { L with
      cache := L.cache ++
        [(c.name,
          { model := none
            status := .idle
            lastUsed := now
            loadPromise := none
            config := some c })] }

/-- `getModelStatus(modelName)`. -/
def getModelStatus (L : LoaderState) (n : String) : Status :=
  match lookupE L.cache n with
  | some e => e.status
  | none => .idle

/-- `unloadModel(modelName)`: no-op unless the entry exists and is `LOADED`;
then clears the model reference and resets the status to `IDLE`. -/
def unloadModel (L : LoaderState) (n : String) : LoaderState :=
  match lookupE L.cache n with
  | none => L
  | some e =>
    if e.status = .loaded then
      modifyEntry L n fun en => { en with model := none, status := .idle }
    else L

/-- Stable insertion of one entry into a list sorted ascending by `lastUsed`
(mirrors the stable `Array.prototype.sort` comparator
`entryA.lastUsed - entryB.lastUsed`). -/
def insertByLU (x : String × Entry) : List (String × Entry) → List (String × Entry)
  | [] => [x]
  | y :: ys => if y.2.lastUsed ≤ x.2.lastUsed then y :: insertByLU x ys else x :: y :: ys

/-- Stable sort ascending by `lastUsed` (oldest first). -/
def sortByLastUsed : List (String × Entry) → List (String × Entry)
  | [] => []
  | x :: xs => insertByLU x (sortByLastUsed xs)

/-- `while (entries.length > 0 && this.modelCache.size > this.maxCacheSize)
{ const [modelName] = entries.shift(); this.unloadModel(modelName); }`.
Note `unloadModel` never deletes a key, so `modelCache.size` is constant
through the loop. -/
def evictLoop (L : LoaderState) : List (String × Entry) → LoaderState
  | [] => L
  | (n, _) :: rest =>
    if L.cache.length > L.maxCacheSize then evictLoop (unloadModel L n) rest else L

/-- `ensureCacheSpace()`: no-op when `modelCache.size <= maxCacheSize`
(the size counts every registered entry, whatever its status); otherwise
the `LOADED` entries, oldest `lastUsed` first, are unloaded by `evictLoop`. -/
def ensureCacheSpace (L : LoaderState) : LoaderState :=
  if L.cache.length ≤ L.maxCacheSize then L
  else evictLoop L (sortByLastUsed (L.cache.filter fun p => p.2.status = .loaded))

/-- One iteration of the `cleanupExpiredModels` loop, reading the live entry
for key `n` from the current state. -/
def cleanupStep (now : Nat) (s : LoaderState) (n : String) : LoaderState :=
  match lookupE s.cache n with
  | some e =>
    if e.status = .loaded ∧ now - e.lastUsed > s.cacheTtl then unloadModel s n else s
  | none => s

/-- `cleanupExpiredModels()`: for every entry, unload it when it is `LOADED`
and `now - lastUsed > cacheTtl`. -/
def cleanupExpiredModels (L : LoaderState) (now : Nat) : LoaderState :=
  (L.cache.map Prod.fst).foldl (cleanupStep now) L

/-- `dispose()`: unload every entry, clear the table, reset the init flag. -/
def dispose (L : LoaderState) : LoaderState :=
  let L' := (L.cache.map Prod.fst).foldl (fun s n => unloadModel s n) L
  { L' with cache := [], isInit := false }

/-- The errors `loadModel` can throw. -/
inductive LErr where
  /-- `Model '<name>' is not registered.` -/
  | notRegistered (name : String)
  /-- `No valid load function found for model '<name>'` -/
  | noLoadFn (name : String)
  /-- an external error raised by the supplied constructor, re-thrown
  unchanged (`e` is the identity of the underlying error object) -/
  | ext (e : Nat)
deriving DecidableEq, Repr

/-- What one `loadModel` call settles with. -/
inductive LoadRes where
  | ok (r : Nat)
  | err (e : LErr)
  /-- the call returned the already-stored in-flight promise `p`
  (unreachable in atomic runs, where `loadPromise` is always `none`) -/
  | joined (p : Nat)
deriving DecidableEq, Repr

/-- Result of an atomic `loadModel` call: the settled value, the state after
the call, and the `ctorId` of the constructor invoked by this call (if any). -/
structure LoadOut where
  res : LoadRes
  st : LoaderState
  invoked : Option Nat
deriving DecidableEq, Repr

/-- The body of `async loadModel(modelName, config?)` after its
late-registration step, run atomically to completion with the constructor
settling with `out`.  Mirrors the source line by line: the `NotRegistered`
throw, the unconditional `lastUsed` update, the cached-model fast path, the
join of an existing in-flight promise, the transition to `LOADING`,
`ensureCacheSpace`, `config || entry.config`, the `No valid load function`
throw (caught by the same `catch`), and the success / failure updates with
the `finally { entry.loadPromise = null }`. -/
def loadModelGo (L1 : LoaderState) (name : String) (cfg : Option Config) (now : Nat)
    (out : Except Nat Nat) : LoadOut :=
  match lookupE L1.cache name with
  | none => ⟨.err (.notRegistered name), L1, none⟩
  | some e =>
    let e1 := { e with lastUsed := now }
    let L2 := modifyEntry L1 name fun en => { en with lastUsed := now }
    if h : e1.model.isSome = true ∧ e1.status = .loaded then
      ⟨.ok (e1.model.get h.1), L2, none⟩
    else if h2 : e1.status = .loading ∧ e1.loadPromise.isSome = true then
      ⟨.joined (e1.loadPromise.get h2.2), L2, none⟩
    else
      let L3 := modifyEntry L2 name fun en => { en with status := .loading }
      let L4 := ensureCacheSpace L3
      let modelConfig : Option Config := match cfg with
        | some c => some c
        | none => e1.config
      match modelConfig with
      | some c =>
        if c.hasLoad then
          match out with
          | .ok r =>
            ⟨.ok r,
             modifyEntry L4 name fun en =>
               { en with model := some r, status := .loaded, loadPromise := none },
             some c.ctorId⟩
          | .error ex =>
            ⟨.err (.ext ex),
             modifyEntry L4 name fun en =>
               { en with status := .error, loadPromise := none },
             some c.ctorId⟩
        else
          ⟨.err (.noLoadFn name),
           modifyEntry L4 name fun en =>
             { en with status := .error, loadPromise := none },
           none⟩
      | none =>
        ⟨.err (.noLoadFn name),
         modifyEntry L4 name fun en =>
           { en with status := .error, loadPromise := none },
         none⟩

/-- `async loadModel(modelName, config?)` run atomically to completion:
`if (!this.modelCache.has(modelName) && config) this.registerModel(config)`
followed by the body `loadModelGo`. -/
def loadModel (L : LoaderState) (name : String) (cfg : Option Config) (now : Nat)
    (out : Except Nat Nat) : LoadOut :=
  loadModelGo
    (match cfg with
     | some c => if hasEntry L name then L else registerModel L c now
     | none => L)
    name cfg now out

/-- `preloadModel(modelName)`: only proceeds from `IDLE`; the resulting
rejection, if any, is swallowed (`.catch(console.warn)`). -/
def preloadModel (L : LoaderState) (name : String) (now : Nat)
    (out : Except Nat Nat) : LoaderState :=
  match lookupE L.cache name with
  | none => L
  | some e => if e.status = .idle then (loadModel L name none now out).st else L

/-!
Fine-grained cooperative semantics of concurrent `loadModel` calls.

In the source's single-threaded event-loop model, an `async loadModel` call
runs synchronously up to its first `await` and is then suspended while other
calls run.  The suspension points of `loadModel` are:
* `await this.ensureCacheSpace()` — the eviction pass itself runs
  synchronously inside the call (an `async` function body runs up to its
  first `await` or its end before the caller suspends), after which the call
  yields to the event loop;
* `await entry.loadPromise` — the call suspends until the constructor's
  promise settles; callers that returned the stored `entry.loadPromise` from
  the already-loading fast path suspend there too.

So a call is a sequence of three atomic segments: `segA` (entry to the first
await, including the synchronous body of `ensureCacheSpace`), `segB` (resume
after the eviction pass: pick the config, invoke the constructor, store the
promise) and `segC` (the constructor's promise settles).  A scheduler runs a
system of calls by a list of events: `step i` runs the next pending segment
of call `i`, and `settle p out` settles promise `p` with `out`, completing
the creator (running its `segC`) and every joined waiter of `p`.
-/

/-- The suspension state of one in-progress `loadModel` call. -/
inductive CallSt where
  /-- the call was issued but its body has not run yet -/
  | ready (name : String) (cfg : Option Config) (now : Nat)
  /-- suspended at `await this.ensureCacheSpace()` -/
  | awaitSpace (name : String) (cfg : Option Config)
  /-- this call created promise `p` and is suspended at `await entry.loadPromise` -/
  | awaitCtor (name : String) (p : Nat)
  /-- this call returned the stored in-flight promise `p` and awaits it -/
  | joined (p : Nat)
  /-- the call settled -/
  | done (r : LoadRes)
deriving DecidableEq, Repr

/-- A system of concurrent `loadModel` calls against one loader:
`invoked` records, in order, the `ctorId` of every constructor invocation. -/
structure Sys where
  loader : LoaderState
  calls : List CallSt
  nextProm : Nat
  invoked : List Nat
deriving DecidableEq, Repr

/-- Segment A of `loadModel`: late registration, `NotRegistered` throw,
`lastUsed` update, cached fast path, join of a stored in-flight promise;
otherwise the transition to `LOADING` followed by the synchronous body of
`ensureCacheSpace`, suspending at its `await`. -/
def segA (L : LoaderState) (name : String) (cfg : Option Config) (now : Nat) :
    LoaderState × CallSt :=
  let L1 := match cfg with
    | some c => if hasEntry L name then L else registerModel L c now
    | none => L
  match lookupE L1.cache name with
  | none => (L1, .done (.err (.notRegistered name)))
  | some e =>
    let e1 := { e with lastUsed := now }
    let L2 := modifyEntry L1 name fun en => { en with lastUsed := now }
    if h : e1.model.isSome = true ∧ e1.status = .loaded then
      (L2, .done (.ok (e1.model.get h.1)))
    else if h2 : e1.status = .loading ∧ e1.loadPromise.isSome = true then
      (L2, .joined (e1.loadPromise.get h2.2))
    else
      let L3 := modifyEntry L2 name fun en => { en with status := .loading }
      (ensureCacheSpace L3, .awaitSpace name cfg)

/-- Segment B of `loadModel`: resume after the eviction pass, compute
`config || entry.config`, either throw `No valid load function` (caught:
status `ERROR`, promise cleared) or invoke the constructor and store the
fresh promise `p` as `entry.loadPromise` before awaiting it.
Returns the `ctorId` of the constructor invoked, if any. -/
def segB (L : LoaderState) (name : String) (cfg : Option Config) (p : Nat) :
    LoaderState × CallSt × Option Nat :=
  match lookupE L.cache name with
  | none => (L, .done (.err (.notRegistered name)), none)
  | some e =>
    let modelConfig : Option Config := match cfg with
      | some c => some c
      | none => e.config
    match modelConfig with
    | some c =>
      if c.hasLoad then
        (modifyEntry L name fun en => { en with loadPromise := some p },
         .awaitCtor name p, some c.ctorId)
      else
        (modifyEntry L name fun en => { en with status := .error, loadPromise := none },
         .done (.err (.noLoadFn name)), none)
    | none =>
      (modifyEntry L name fun en => { en with status := .error, loadPromise := none },
       .done (.err (.noLoadFn name)), none)

/-- Segment C of `loadModel`: the creator's continuation when its promise
settles — on success store the model and set `LOADED`, on failure set
`ERROR`; either way `finally { entry.loadPromise = null }`. -/
def segC (L : LoaderState) (name : String) (out : Except Nat Nat) :
    LoaderState × CallSt :=
  match out with
  | .ok r =>
    (modifyEntry L name fun en =>
       { en with model := some r, status := .loaded, loadPromise := none },
     .done (.ok r))
  | .error ex =>
    (modifyEntry L name fun en => { en with status := .error, loadPromise := none },
     .done (.err (.ext ex)))

/-- Run the next pending segment of call `i` (no-op when `i` is settled,
awaiting a promise, or out of range). -/
def stepCall (sys : Sys) (i : Nat) : Sys :=
  match sys.calls.get? i with
  | some (.ready name cfg now) =>
    let r := segA sys.loader name cfg now
    { sys with loader := r.1, calls := sys.calls.set i r.2 }
  | some (.awaitSpace name cfg) =>
    let r := segB sys.loader name cfg sys.nextProm
    { sys with
      loader := r.1
      calls := sys.calls.set i r.2.1
      nextProm := sys.nextProm + 1
      invoked := sys.invoked ++ (match r.2.2 with | some id => [id] | none => []) }
  | _ => sys

/-- Settle promise `p` with `out`: the creator runs its segment C and every
waiter joined on `p` settles with the same value (a rejection reaches a
joined waiter as the same underlying error). -/
def settleP (sys : Sys) (p : Nat) (out : Except Nat Nat) : Sys :=
  let r := sys.calls.foldl
    (fun (acc : LoaderState × List CallSt) c =>
      match c with
      | .awaitCtor name p' =>
        if p' = p then
          let s := segC acc.1 name out
          (s.1, acc.2 ++ [s.2])
        else (acc.1, acc.2 ++ [c])
      | .joined p' =>
        if p' = p then
          (acc.1, acc.2 ++
            [.done (match out with | .ok v => .ok v | .error ex => .err (.ext ex))])
        else (acc.1, acc.2 ++ [c])
      | c => (acc.1, acc.2 ++ [c]))
    (sys.loader, [])
  { sys with loader := r.1, calls := r.2 }

/-- A scheduler event: run the next segment of a call, or settle a promise. -/
inductive Ev where
  | step (i : Nat)
  | settle (p : Nat) (out : Except Nat Nat)
deriving Repr

/-- Run a schedule of events. -/
def runEvs (sys : Sys) : List Ev → Sys
  | [] => sys
  | .step i :: rest => runEvs (stepCall sys i) rest
  | .settle p out :: rest => runEvs (settleP sys p out) rest

/-!
Concrete scenarios referenced by the claims.
-/

/-- C1 scenario: configuration of `"x"` (constructor id 1). -/
def c1cfgx : Config := ⟨"x", 1, true⟩

/-- C1 scenario: configuration of `"y"` (constructor id 2). -/
def c1cfgy : Config := ⟨"y", 2, true⟩

/-- C1 scenario: configuration of `"z"` (constructor id 3). -/
def c1cfgz : Config := ⟨"z", 3, true⟩

/-- C1 scenario: capacity 2, `load("x")` then `load("y")` with increasing
access times, both succeeding. -/
def c1s2 : LoaderState :=
  (loadModel (loadModel (mkLoader (some 2) none) "x" (some c1cfgx) 1 (.ok 10)).st
    "y" (some c1cfgy) 2 (.ok 20)).st

/-- C1 scenario: then `load("z")`, succeeding. -/
def c1s3 : LoaderState := (loadModel c1s2 "z" (some c1cfgz) 3 (.ok 30)).st

/-- C3 scenario: configuration of `"a"` (constructor id 1, succeeds). -/
def c3cfga : Config := ⟨"a", 1, true⟩

/-- C3 scenario: configuration of `"b"` (constructor id 2, fails). -/
def c3cfgb : Config := ⟨"b", 2, true⟩

/-- C3 scenario: capacity 1, `"a"` and `"b"` registered. -/
def c3t0 : LoaderState :=
  registerModel (registerModel (mkLoader (some 1) none) c3cfga 0) c3cfgb 0

/-- C3 scenario: `load("a")` resolves with resource 100. -/
def c3t1 : LoadOut := loadModel c3t0 "a" none 1 (.ok 100)

/-- C3 scenario: `load("b")`, whose constructor rejects with error 7. -/
def c3t2 : LoadOut := loadModel c3t1.st "b" none 2 (.error 7)

/-- C3 scenario: `load("a")` again, constructor (if invoked) resolves 101. -/
def c3t3 : LoadOut := loadModel c3t2.st "a" none 3 (.ok 101)

/-- C2 scenario: the registered configuration of `"m"` (constructor id 7). -/
def c2cfg : Config := ⟨"m", 7, true⟩

/-- C2 scenario: `"m"` registered and two concurrent `load("m")` calls
issued while its entry is `Idle`. -/
def c2init : Sys :=
  { loader := registerModel (mkLoader none none) c2cfg 0
    calls := [.ready "m" none 1, .ready "m" none 2]
    nextProm := 0
    invoked := [] }

/-- C2 scenario, racing schedule: call 0 runs to its
`await ensureCacheSpace()` suspension, then call 1 runs (observing
status `LOADING` but `loadPromise` still null), then each resumes and
invokes the constructor; the two construction promises resolve with
distinct instances 10 and 11. -/
def c2race : Sys :=
  runEvs c2init [.step 0, .step 1, .step 0, .step 1, .settle 0 (.ok 10), .settle 1 (.ok 11)]

/-- C2 scenario, joining schedule: call 0 runs through storing its
construction promise as `loadPromise`; call 1 arrives afterwards and joins
it; the promise resolves with instance 10. -/
def c2join : Sys :=
  runEvs c2init [.step 0, .step 0, .step 1, .settle 0 (.ok 10)]

/-- The per-entry state invariant: the model reference is present exactly
when the status is `LOADED`, and no in-flight promise is stored (in atomic
runs `loadPromise` is always cleared again by the `finally` block). -/
def entryOk (e : Entry) : Prop :=
  (e.model.isSome = true ↔ e.status = Status.loaded) ∧ e.loadPromise = none

/-- The loader-wide invariant: every cached entry satisfies `entryOk`. -/
def InvL (L : LoaderState) : Prop := ∀ p ∈ L.cache, entryOk p.2

/-- Loader states reachable from a freshly-constructed instance by the
public operations, each `loadModel` / `preloadModel` call run atomically. -/
inductive Reachable : LoaderState → Prop where
  | init (m t : Option Nat) : Reachable (mkLoader m t)
  | register {L : LoaderState} (h : Reachable L) (c : Config) (now : Nat) :
      Reachable (registerModel L c now)
  | load {L : LoaderState} (h : Reachable L) (n : String) (cfg : Option Config)
      (now : Nat) (out : Except Nat Nat) : Reachable ((loadModel L n cfg now out).st)
  | preload {L : LoaderState} (h : Reachable L) (n : String) (now : Nat)
      (out : Except Nat Nat) : Reachable (preloadModel L n now out)
  | unload {L : LoaderState} (h : Reachable L) (n : String) : Reachable (unloadModel L n)
  | cleanup {L : LoaderState} (h : Reachable L) (now : Nat) :
      Reachable (cleanupExpiredModels L now)
  | dispose {L : LoaderState} (h : Reachable L) : Reachable (dispose L)

/-- The effect of one `cleanupExpiredModels` iteration on its own entry:
unload it when it is `LOADED` and `now - lastUsed > cacheTtl`. -/
def expireE (ttl now : Nat) (e : Entry) : Entry :=
  if e.status = Status.loaded ∧ now - e.lastUsed > ttl then
    { e with model := none, status := Status.idle }
  else e

/-- Witness configuration: resource `"w"` with constructor id 4. -/
def wCfg : Config := ⟨"w", 4, true⟩

/-- Witness loader: `"w"` registered and `Idle`. -/
def wReg : LoaderState := registerModel (mkLoader none none) wCfg 0

/-- Witness loader: `"w"` loaded with resource 9 at time 1. -/
def wLoaded : LoaderState := (loadModel wReg "w" none 1 (.ok 9)).st

/-- Witness loader for the TTL sweep: `"m"` loaded, last used at 0, TTL 10. -/
def c7L : LoaderState :=
  { cache := [("m", ⟨some 5, Status.loaded, 0, none, none⟩)]
    isInit := true
    maxCacheSize := 5
    cacheTtl := 10 }

/-!
Theorems.
-/

/-- `orDefault` never yields zero when the default is nonzero. -/
lemma orDefault_ne_zero (v : Option Nat) (d : Nat) (hd : d ≠ 0) : orDefault v d ≠ 0 := by
  cases v with
  | none => simpa [orDefault] using hd
  | some n =>
    by_cases h : n = 0 <;> simp [orDefault, h, hd]

/-- C1 (counterexample): with capacity 2, after `load("x")` then `load("y")`
(both `Loaded`), loading `"z"` does *not* leave `"y"` `Loaded` while evicting
only `"x"`: the eviction pass keeps unloading because `modelCache.size`
counts registered entries and never shrinks, so `"y"` is unloaded too. -/
theorem claim_C1_counterexample :
    ¬ (getModelStatus c1s3 "x" = .idle ∧ getModelStatus c1s3 "y" = .loaded ∧
       getModelStatus c1s3 "z" = .loaded) := by
  decide

/-- C1 (amended): in the capacity-2 scenario, `"x"` and `"y"` are both
`Loaded` before `load("z")`; loading `"z"` triggers the eviction pass
(3 registered entries > capacity 2), which unloads the `Loaded` entries
oldest-first but — since unloading never removes a registration from the
table — drains *all* of them: afterwards `"x"` and `"y"` are both `Idle`
and only `"z"` is `Loaded`, holding its constructed resource. -/
theorem claim_C1_amended :
    getModelStatus c1s2 "x" = .loaded ∧ getModelStatus c1s2 "y" = .loaded ∧
    getModelStatus c1s3 "x" = .idle ∧ getModelStatus c1s3 "y" = .idle ∧
    getModelStatus c1s3 "z" = .loaded ∧
    (lookupE c1s3.cache "z").map Entry.model = some (some 30) := by
  decide

/-- C3 (counterexample): with capacity 1, after `load("a")` succeeds, the
failing `load("b")` does *not* leave `"a"` `Loaded` (its eviction pass runs
before `"b"`'s constructor and unloads `"a"`, since 2 registered entries
exceed capacity 1), and the subsequent `load("a")` *does* re-invoke `"a"`'s
constructor rather than returning a cached instance. -/
theorem claim_C3_counterexample :
    getModelStatus c3t2.st "a" ≠ .loaded ∧ c3t3.invoked ≠ none := by
  decide

/-- C3 (amended): `load("a")` resolves with the constructed resource and
leaves `"a"` `Loaded`; `load("b")` first runs the eviction pass, which
unloads `"a"` (2 registered > capacity 1), then runs `"b"`'s constructor,
which fails: the error propagates unchanged, `"b"` ends `Error` and `"a"`
ends `Idle`; the further `load("a")` re-invokes `"a"`'s constructor
(ctor id 1) and, it succeeding, returns the fresh resource with `"a"`
`Loaded` again. -/
theorem claim_C3_amended :
    c3t1.res = .ok 100 ∧ getModelStatus c3t1.st "a" = .loaded ∧
    c3t2.res = .err (.ext 7) ∧ getModelStatus c3t2.st "b" = .error ∧
    getModelStatus c3t2.st "a" = .idle ∧
    c3t3.invoked = some 1 ∧ c3t3.res = .ok 101 ∧
    getModelStatus c3t3.st "a" = .loaded := by
  decide

/-- C2 (counterexample): two concurrent `load("m")` calls issued while the
entry is `Idle`, under the schedule where the second call's body runs while
the first is suspended at `await ensureCacheSpace()` (status `LOADING`,
`loadPromise` still null): the constructor is invoked twice, not once, and
the two calls resolve to distinct instances. -/
theorem claim_C2_counterexample :
    c2race.invoked = [7, 7] ∧ c2race.invoked.length ≠ 1 ∧
    c2race.calls = [.done (.ok 10), .done (.ok 11)] := by
  decide

/-- C2 (amended): a concurrent `load("m")` call whose body runs after the
first call has stored the construction task as `loadPromise` joins that
task: under the joining schedule the constructor is invoked exactly once and
both calls resolve to the identical instance, the entry ending `Loaded`.
(Exactly-once fails only for callers whose body runs inside the window
between the `LOADING` transition and the task being stored, as in the
counterexample schedule.) -/
theorem claim_C2_amended :
    c2join.invoked = [7] ∧
    c2join.calls = [.done (.ok 10), .done (.ok 10)] ∧
    getModelStatus c2join.loader "m" = .loaded := by
  decide

/-- C5: after `dispose()`, the status of every name is `Idle` and a plain
`load(name)` without an inline configuration fails with the
`NotRegistered` error, exactly as if the name had never been registered. -/
theorem claim_C5 (L : LoaderState) (n : String) (now : Nat) (out : Except Nat Nat) :
    getModelStatus (dispose L) n = .idle ∧
    (loadModel (dispose L) n none now out).res = .err (.notRegistered n) := by
  exact ⟨rfl, rfl⟩

/-- C10: constructing the loader with `maxCacheSize: 0` or `cacheTtl: 0`
(the falsy number) silently falls back to the defaults 5 and 1 800 000 ms,
and no option value can configure a zero capacity or zero TTL. -/
theorem claim_C10 :
    (mkLoader (some 0) (some 0)).maxCacheSize = 5 ∧
    (mkLoader (some 0) (some 0)).cacheTtl = 1800000 ∧
    ∀ m t : Option Nat, (mkLoader m t).maxCacheSize ≠ 0 ∧ (mkLoader m t).cacheTtl ≠ 0 := by
  refine ⟨rfl, rfl, fun m t => ⟨?_, ?_⟩⟩
  · exact orDefault_ne_zero m 5 (by decide)
  · exact orDefault_ne_zero t (30 * 60 * 1000) (by decide)

lemma lookupE_mem {cache : List (String × Entry)} {n : String} {e : Entry}
    (h : lookupE cache n = some e) : (n, e) ∈ cache := by
  induction cache with
  | nil => simp [lookupE] at h
  | cons p rest ih =>
    obtain ⟨m, e'⟩ := p
    by_cases hm : m = n
    · subst hm
      simp [lookupE] at h
      simp [h]
    · simp [lookupE, hm] at h
      exact List.mem_cons_of_mem _ (ih h)

lemma lookupE_mem_fst {cache : List (String × Entry)} {n : String} {e : Entry}
    (h : lookupE cache n = some e) : n ∈ cache.map Prod.fst := by
  exact List.mem_map_of_mem _ (lookupE_mem h)

lemma lookupE_modifyE_self {cache : List (String × Entry)} {n : String} {e : Entry}
    (f : Entry → Entry) (h : lookupE cache n = some e) :
    lookupE (modifyE f cache n) n = some (f e) := by
  induction cache with
  | nil => simp [lookupE] at h
  | cons p rest ih =>
    obtain ⟨m, e'⟩ := p
    by_cases hm : m = n
    · subst hm
      simp [lookupE] at h
      subst h
      simp [modifyE, lookupE]
    · simp [lookupE, hm] at h
      simp [modifyE, lookupE, hm, ih h]

lemma lookupE_modifyE_ne {cache : List (String × Entry)} {n m : String}
    (f : Entry → Entry) (h : m ≠ n) :
    lookupE (modifyE f cache n) m = lookupE cache m := by
  induction cache with
  | nil => simp [modifyE]
  | cons p rest ih =>
    obtain ⟨k, e'⟩ := p
    by_cases hk : k = n
    · subst hk
      simp [modifyE, lookupE, Ne.symm h]
    · simp [modifyE, lookupE, hk, ih]

lemma mem_modifyE {cache : List (String × Entry)} {n : String} {f : Entry → Entry}
    {p : String × Entry} (h : p ∈ modifyE f cache n) :
    p ∈ cache ∨ ∃ e, lookupE cache n = some e ∧ p = (n, f e) := by
  induction cache with
  | nil => simp [modifyE] at h
  | cons q rest ih =>
    obtain ⟨k, e'⟩ := q
    by_cases hk : k = n
    · subst hk
      simp [modifyE] at h
      rcases h with h | h
      · exact Or.inr ⟨e', by simp [lookupE], by simp [h]⟩
      · exact Or.inl (List.mem_cons_of_mem _ h)
    · simp [modifyE, hk] at h
      rcases h with h | h
      · exact Or.inl (by simp [h])
      · rcases ih h with h' | ⟨e, he, hp⟩
        · exact Or.inl (List.mem_cons_of_mem _ h')
        · exact Or.inr ⟨e, by simp [lookupE, hk, he], hp⟩

lemma modifyE_length (f : Entry → Entry) (cache : List (String × Entry)) (n : String) :
    (modifyE f cache n).length = cache.length := by
  induction cache with
  | nil => simp [modifyE]
  | cons p rest ih =>
    obtain ⟨k, e⟩ := p
    by_cases hk : k = n <;> simp [modifyE, hk, ih]

lemma unloadModel_fields (L : LoaderState) (n : String) :
    (unloadModel L n).cache.length = L.cache.length ∧
    (unloadModel L n).maxCacheSize = L.maxCacheSize ∧
    (unloadModel L n).cacheTtl = L.cacheTtl := by
  unfold unloadModel
  cases h : lookupE L.cache n with
  | none => simp
  | some e =>
    by_cases hs : e.status = Status.loaded <;>
      simp [hs, modifyEntry, modifyE_length]

lemma lookupE_unload_nonloaded {L : LoaderState} {n : String} {e : Entry}
    (m : String) (he : lookupE L.cache n = some e) (hs : e.status ≠ Status.loaded) :
    lookupE (unloadModel L m).cache n = some e := by
  unfold unloadModel
  cases h : lookupE L.cache m with
  | none => simpa using he
  | some e' =>
    by_cases hs' : e'.status = Status.loaded
    · simp only [hs', if_pos rfl]
      by_cases hmn : m = n
      · subst hmn
        rw [he] at h
        cases h
        exact absurd hs' hs
      · simpa [modifyEntry, lookupE_modifyE_ne _ (Ne.symm hmn)] using he
    · simpa [hs'] using he

lemma lookupE_evictLoop_nonloaded {n : String} {e : Entry} :
    ∀ (lst : List (String × Entry)) (L : LoaderState),
      lookupE L.cache n = some e → e.status ≠ Status.loaded →
      lookupE (evictLoop L lst).cache n = some e := by
  intro lst
  induction lst with
  | nil => intro L he _; simpa [evictLoop] using he
  | cons p rest ih =>
    intro L he hs
    obtain ⟨m, e'⟩ := p
    unfold evictLoop
    by_cases hgt : L.cache.length > L.maxCacheSize
    · simp only [hgt, if_pos rfl]
      exact ih _ (lookupE_unload_nonloaded m he hs) hs
    · simpa [hgt] using he

lemma lookupE_ensure_nonloaded {L : LoaderState} {n : String} {e : Entry}
    (he : lookupE L.cache n = some e) (hs : e.status ≠ Status.loaded) :
    lookupE (ensureCacheSpace L).cache n = some e := by
  unfold ensureCacheSpace
  by_cases hle : L.cache.length ≤ L.maxCacheSize
  · simpa [hle] using he
  · rw [if_neg hle]
    exact lookupE_evictLoop_nonloaded _ L he hs

lemma hasEntry_true {L : LoaderState} {n : String} {e : Entry}
    (he : lookupE L.cache n = some e) : hasEntry L n = true := by
  simp [hasEntry, he]

lemma loadModel_cached {L : LoaderState} {name : String} {e : Entry} {r : Nat}
    (cfg : Option Config) (now : Nat) (out : Except Nat Nat)
    (he : lookupE L.cache name = some e) (hm : e.model = some r)
    (hs : e.status = Status.loaded) :
    loadModel L name cfg now out =
      ⟨.ok r, modifyEntry L name fun en => { en with lastUsed := now }, none⟩ := by
  cases cfg with
  | none => simp [loadModel, loadModelGo, he, hm, hs]
  | some c => simp [loadModel, loadModelGo, hasEntry_true he, he, hm, hs]

lemma loadModel_ctor_ok {L : LoaderState} {name : String} {e : Entry} {c : Config}
    (cfg : Option Config) (now r : Nat)
    (he : lookupE L.cache name = some e)
    (hs1 : e.status ≠ Status.loaded) (hs2 : e.status ≠ Status.loading)
    (hc : (match cfg with | some c' => some c' | none => e.config) = some c)
    (hl : c.hasLoad = true) :
    (loadModel L name cfg now (.ok r)).res = .ok r ∧
    (loadModel L name cfg now (.ok r)).invoked = some c.ctorId ∧
    lookupE (loadModel L name cfg now (.ok r)).st.cache name =
      some { e with lastUsed := now, model := some r, status := Status.loaded,
                    loadPromise := none } := by
  have hcond1 : ¬ (({ e with lastUsed := now } : Entry).model.isSome = true ∧
      ({ e with lastUsed := now } : Entry).status = Status.loaded) := by
    simp [hs1]
  have hcond2 : ¬ (({ e with lastUsed := now } : Entry).status = Status.loading ∧
      ({ e with lastUsed := now } : Entry).loadPromise.isSome = true) := by
    simp [hs2]
  have hL2 : lookupE (modifyEntry L name fun en => { en with lastUsed := now }).cache name
      = some { e with lastUsed := now } := by
    simpa [modifyEntry] using lookupE_modifyE_self _ he
  have hL3 : lookupE (modifyEntry
      (modifyEntry L name fun en => { en with lastUsed := now }) name
      fun en => { en with status := Status.loading }).cache name
      = some { e with lastUsed := now, status := Status.loading } := by
    simpa [modifyEntry] using lookupE_modifyE_self
      (fun en => { en with status := Status.loading }) hL2
  have hL4 : lookupE (ensureCacheSpace (modifyEntry
      (modifyEntry L name fun en => { en with lastUsed := now }) name
      fun en => { en with status := Status.loading })).cache name
      = some { e with lastUsed := now, status := Status.loading } := by
    exact lookupE_ensure_nonloaded hL3 (by simp)
  have hfin := lookupE_modifyE_self
    (fun en => { en with model := some r, status := Status.loaded, loadPromise := none }) hL4
  simp only [modifyEntry] at hfin
  cases cfg with
  | none =>
    have hc' : e.config = some c := by simpa using hc
    refine ⟨?_, ?_, ?_⟩ <;>
      simp [loadModel, loadModelGo, he, hcond1, hcond2, hc', hl, modifyEntry, hfin]
  | some c' =>
    have hc' : c' = c := by simpa using hc
    subst hc'
    refine ⟨?_, ?_, ?_⟩ <;>
      simp [loadModel, loadModelGo, hasEntry_true he, he, hcond1, hcond2, hl, modifyEntry, hfin]

lemma loadModel_ctor_error {L : LoaderState} {name : String} {e : Entry} {c : Config}
    (cfg : Option Config) (now ex : Nat)
    (he : lookupE L.cache name = some e)
    (hs1 : e.status ≠ Status.loaded) (hs2 : e.status ≠ Status.loading)
    (hc : (match cfg with | some c' => some c' | none => e.config) = some c)
    (hl : c.hasLoad = true) :
    (loadModel L name cfg now (.error ex)).res = .err (.ext ex) ∧
    (loadModel L name cfg now (.error ex)).invoked = some c.ctorId ∧
    lookupE (loadModel L name cfg now (.error ex)).st.cache name =
      some { e with lastUsed := now, status := Status.error, loadPromise := none } := by
  have hcond1 : ¬ (({ e with lastUsed := now } : Entry).model.isSome = true ∧
      ({ e with lastUsed := now } : Entry).status = Status.loaded) := by
    simp [hs1]
  have hcond2 : ¬ (({ e with lastUsed := now } : Entry).status = Status.loading ∧
      ({ e with lastUsed := now } : Entry).loadPromise.isSome = true) := by
    simp [hs2]
  have hL2 : lookupE (modifyEntry L name fun en => { en with lastUsed := now }).cache name
      = some { e with lastUsed := now } := by
    simpa [modifyEntry] using lookupE_modifyE_self _ he
  have hL3 : lookupE (modifyEntry
      (modifyEntry L name fun en => { en with lastUsed := now }) name
      fun en => { en with status := Status.loading }).cache name
      = some { e with lastUsed := now, status := Status.loading } := by
    simpa [modifyEntry] using lookupE_modifyE_self
      (fun en => { en with status := Status.loading }) hL2
  have hL4 : lookupE (ensureCacheSpace (modifyEntry
      (modifyEntry L name fun en => { en with lastUsed := now }) name
      fun en => { en with status := Status.loading })).cache name
      = some { e with lastUsed := now, status := Status.loading } := by
    exact lookupE_ensure_nonloaded hL3 (by simp)
  have hfin := lookupE_modifyE_self
    (fun en => { en with status := Status.error, loadPromise := none }) hL4
  simp only [modifyEntry] at hfin
  cases cfg with
  | none =>
    have hc' : e.config = some c := by simpa using hc
    refine ⟨?_, ?_, ?_⟩ <;>
      simp [loadModel, loadModelGo, he, hcond1, hcond2, hc', hl, modifyEntry, hfin]
  | some c' =>
    have hc' : c' = c := by simpa using hc
    subst hc'
    refine ⟨?_, ?_, ?_⟩ <;>
      simp [loadModel, loadModelGo, hasEntry_true he, he, hcond1, hcond2, hl, modifyEntry, hfin]




lemma invL_lookup {L : LoaderState} {n : String} {e : Entry}
    (hI : InvL L) (he : lookupE L.cache n = some e) : entryOk e :=
  hI _ (lookupE_mem he)

lemma invL_modify {L : LoaderState} {n : String} {e : Entry} {f : Entry → Entry}
    (hI : InvL L) (he : lookupE L.cache n = some e) (hf : entryOk (f e)) :
    InvL (modifyEntry L n f) := by
  intro p hp
  rcases mem_modifyE hp with h | ⟨e', he', hp'⟩
  · exact hI _ h
  · rw [he] at he'
    cases he'
    rw [hp']
    exact hf

lemma invL_unload {L : LoaderState} (n : String) (hI : InvL L) :
    InvL (unloadModel L n) := by
  unfold unloadModel
  cases h : lookupE L.cache n with
  | none => exact hI
  | some e =>
    by_cases hs : e.status = Status.loaded
    · simp only [hs, if_pos rfl]
      exact invL_modify hI h ⟨by simp, (invL_lookup hI h).2⟩
    · simpa [hs] using hI

lemma invL_evict {lst : List (String × Entry)} :
    ∀ {L : LoaderState}, InvL L → InvL (evictLoop L lst) := by
  induction lst with
  | nil => intro L hI; simpa [evictLoop] using hI
  | cons p rest ih =>
    intro L hI
    obtain ⟨m, e⟩ := p
    unfold evictLoop
    by_cases hgt : L.cache.length > L.maxCacheSize
    · simp only [hgt, if_pos rfl]
      exact ih (invL_unload m hI)
    · simpa [hgt] using hI

lemma invL_ensure {L : LoaderState} (hI : InvL L) : InvL (ensureCacheSpace L) := by
  unfold ensureCacheSpace
  by_cases hle : L.cache.length ≤ L.maxCacheSize
  · simpa [hle] using hI
  · rw [if_neg hle]
    exact invL_evict hI

lemma invL_register {L : LoaderState} (c : Config) (now : Nat) (hI : InvL L) :
    InvL (registerModel L c now) := by
  unfold registerModel
  by_cases h : hasEntry L c.name
  · simpa [h] using hI
  · simp only [h, Bool.false_eq_true, if_neg, not_false_iff]
    intro p hp
    rcases List.mem_append.mp hp with h' | h'
    · exact hI _ h'
    · simp at h'
      rw [h']
      exact ⟨by simp, rfl⟩


lemma loadModelGo_eq_notreg {L1 : LoaderState} {name : String}
    (cfg : Option Config) (now : Nat) (out : Except Nat Nat)
    (he : lookupE L1.cache name = none) :
    loadModelGo L1 name cfg now out = ⟨.err (.notRegistered name), L1, none⟩ := by
  simp [loadModelGo, he]

lemma loadModelGo_eq_cached {L1 : LoaderState} {name : String} {e : Entry} {r : Nat}
    (cfg : Option Config) (now : Nat) (out : Except Nat Nat)
    (he : lookupE L1.cache name = some e) (hm : e.model = some r)
    (hs : e.status = Status.loaded) :
    loadModelGo L1 name cfg now out =
      ⟨.ok r, modifyEntry L1 name fun en => { en with lastUsed := now }, none⟩ := by
  simp [loadModelGo, he, hm, hs]

lemma loadModelGo_eq_joined {L1 : LoaderState} {name : String} {e : Entry} {p : Nat}
    (cfg : Option Config) (now : Nat) (out : Except Nat Nat)
    (he : lookupE L1.cache name = some e) (hs : e.status = Status.loading)
    (hp : e.loadPromise = some p) :
    loadModelGo L1 name cfg now out =
      ⟨.joined p, modifyEntry L1 name fun en => { en with lastUsed := now }, none⟩ := by
  simp [loadModelGo, he, hs, hp]

lemma loadModelGo_eq_ctor {L1 : LoaderState} {name : String} {e : Entry} {c : Config}
    (cfg : Option Config) (now : Nat) (out : Except Nat Nat)
    (he : lookupE L1.cache name = some e)
    (hnc1 : ¬ (e.model.isSome = true ∧ e.status = Status.loaded))
    (hnc2 : ¬ (e.status = Status.loading ∧ e.loadPromise.isSome = true))
    (hc : (match cfg with | some c' => some c' | none => e.config) = some c)
    (hl : c.hasLoad = true) :
    loadModelGo L1 name cfg now out =
      match out with
      | .ok r =>
        ⟨.ok r,
         modifyEntry (ensureCacheSpace (modifyEntry
             (modifyEntry L1 name fun en => { en with lastUsed := now }) name
             fun en => { en with status := Status.loading })) name
           fun en => { en with model := some r, status := Status.loaded, loadPromise := none },
         some c.ctorId⟩
      | .error ex =>
        ⟨.err (.ext ex),
         modifyEntry (ensureCacheSpace (modifyEntry
             (modifyEntry L1 name fun en => { en with lastUsed := now }) name
             fun en => { en with status := Status.loading })) name
           fun en => { en with status := Status.error, loadPromise := none },
         some c.ctorId⟩ := by
  have hcond1 : ¬ (({ e with lastUsed := now } : Entry).model.isSome = true ∧
      ({ e with lastUsed := now } : Entry).status = Status.loaded) := by simpa using hnc1
  have hcond2 : ¬ (({ e with lastUsed := now } : Entry).status = Status.loading ∧
      ({ e with lastUsed := now } : Entry).loadPromise.isSome = true) := by simpa using hnc2
  cases cfg with
  | none =>
    have hc' : e.config = some c := by simpa using hc
    cases out <;> simp [loadModelGo, he, hcond1, hcond2, hc', hl, modifyEntry]
  | some c' =>
    have hc' : c' = c := by simpa using hc
    subst hc'
    cases out <;> simp [loadModelGo, he, hcond1, hcond2, hl, modifyEntry]

lemma loadModelGo_eq_nofn {L1 : LoaderState} {name : String} {e : Entry}
    (cfg : Option Config) (now : Nat) (out : Except Nat Nat) (c0 : Config)
    (he : lookupE L1.cache name = some e)
    (hnc1 : ¬ (e.model.isSome = true ∧ e.status = Status.loaded))
    (hnc2 : ¬ (e.status = Status.loading ∧ e.loadPromise.isSome = true))
    (hbad : (match cfg with | some c' => some c' | none => e.config) = none ∨
      ((match cfg with | some c' => some c' | none => e.config) = some c0 ∧
        c0.hasLoad = false)) :
    loadModelGo L1 name cfg now out =
      ⟨.err (.noLoadFn name),
       modifyEntry (ensureCacheSpace (modifyEntry
           (modifyEntry L1 name fun en => { en with lastUsed := now }) name
           fun en => { en with status := Status.loading })) name
         fun en => { en with status := Status.error, loadPromise := none },
       none⟩ := by
  have hcond1 : ¬ (({ e with lastUsed := now } : Entry).model.isSome = true ∧
      ({ e with lastUsed := now } : Entry).status = Status.loaded) := by simpa using hnc1
  have hcond2 : ¬ (({ e with lastUsed := now } : Entry).status = Status.loading ∧
      ({ e with lastUsed := now } : Entry).loadPromise.isSome = true) := by simpa using hnc2
  cases cfg with
  | none =>
    rcases hbad with hb | ⟨hb, hl⟩
    · have hb' : e.config = none := by simpa using hb
      simp [loadModelGo, he, hcond1, hcond2, hb', modifyEntry]
    · have hb' : e.config = some c0 := by simpa using hb
      simp [loadModelGo, he, hcond1, hcond2, hb', hl, modifyEntry]
  | some c' =>
    rcases hbad with hb | ⟨hb, hl⟩
    · simp at hb
    · have hb' : c' = c0 := by simpa using hb
      subst hb'
      simp [loadModelGo, he, hcond1, hcond2, hl, modifyEntry]

lemma invL_loadGo {L1 : LoaderState} (name : String) (cfg : Option Config) (now : Nat)
    (out : Except Nat Nat) (hI1 : InvL L1) :
    InvL ((loadModelGo L1 name cfg now out).st) := by
  cases heq : lookupE L1.cache name with
  | none => rw [loadModelGo_eq_notreg cfg now out heq]; exact hI1
  | some e =>
    have hOk := invL_lookup hI1 heq
    by_cases hc1 : e.model.isSome = true ∧ e.status = Status.loaded
    · obtain ⟨hm, hs⟩ := hc1
      obtain ⟨r, hr⟩ := Option.isSome_iff_exists.mp hm
      rw [loadModelGo_eq_cached cfg now out heq hr hs]
      apply invL_modify hI1 heq
      exact ⟨by simpa using hOk.1, hOk.2⟩
    · by_cases hc2 : e.status = Status.loading ∧ e.loadPromise.isSome = true
      · obtain ⟨hs, hp⟩ := hc2
        obtain ⟨p, hp'⟩ := Option.isSome_iff_exists.mp hp
        rw [loadModelGo_eq_joined cfg now out heq hs hp']
        apply invL_modify hI1 heq
        exact ⟨by simpa using hOk.1, hOk.2⟩
      · have hmodel : e.model = none := by
          cases hm : e.model with
          | none => rfl
          | some r =>
            exact absurd ⟨by simp [hm], hOk.1.mp (by simp [hm])⟩ hc1
        have hL2 : lookupE (modifyEntry L1 name fun en =>
            { en with lastUsed := now }).cache name = some { e with lastUsed := now } := by
          simpa [modifyEntry] using lookupE_modifyE_self _ heq
        have hI2 : InvL (modifyEntry L1 name fun en => { en with lastUsed := now }) := by
          apply invL_modify hI1 heq
          exact ⟨by simpa using hOk.1, hOk.2⟩
        have hI3 : InvL (modifyEntry
            (modifyEntry L1 name fun en => { en with lastUsed := now }) name
            fun en => { en with status := Status.loading }) := by
          apply invL_modify hI2 hL2
          exact ⟨by simp [hmodel], hOk.2⟩
        have hL3 : lookupE (modifyEntry
            (modifyEntry L1 name fun en => { en with lastUsed := now }) name
            fun en => { en with status := Status.loading }).cache name
            = some { e with lastUsed := now, status := Status.loading } := by
          simpa [modifyEntry] using lookupE_modifyE_self
            (fun en => { en with status := Status.loading }) hL2
        have hI4 : InvL (ensureCacheSpace (modifyEntry
            (modifyEntry L1 name fun en => { en with lastUsed := now }) name
            fun en => { en with status := Status.loading })) := invL_ensure hI3
        have hL4 : lookupE (ensureCacheSpace (modifyEntry
            (modifyEntry L1 name fun en => { en with lastUsed := now }) name
            fun en => { en with status := Status.loading })).cache name
            = some { e with lastUsed := now, status := Status.loading } :=
          lookupE_ensure_nonloaded hL3 (by simp)
        cases hmc : (match cfg with | some c' => some c' | none => e.config) with
        | none =>
          rw [loadModelGo_eq_nofn cfg now out ⟨name, 0, false⟩ heq hc1 hc2 (Or.inl hmc)]
          apply invL_modify hI4 hL4
          exact ⟨by simp [hmodel], rfl⟩
        | some c =>
          by_cases hl : c.hasLoad = true
          · rw [loadModelGo_eq_ctor cfg now out heq hc1 hc2 hmc hl]
            cases out with
            | ok r =>
              apply invL_modify hI4 hL4
              exact ⟨by simp, rfl⟩
            | error ex =>
              apply invL_modify hI4 hL4
              exact ⟨by simp [hmodel], rfl⟩
          · rw [loadModelGo_eq_nofn cfg now out c heq hc1 hc2
              (Or.inr ⟨hmc, by simpa using hl⟩)]
            apply invL_modify hI4 hL4
            exact ⟨by simp [hmodel], rfl⟩

lemma invL_load {L : LoaderState} (name : String) (cfg : Option Config) (now : Nat)
    (out : Except Nat Nat) (hI : InvL L) :
    InvL ((loadModel L name cfg now out).st) := by
  unfold loadModel
  apply invL_loadGo
  cases cfg with
  | none => exact hI
  | some c =>
    by_cases h : hasEntry L name
    · simpa [h] using hI
    · simpa [h] using invL_register c now hI

lemma invL_preload {L : LoaderState} (name : String) (now : Nat)
    (out : Except Nat Nat) (hI : InvL L) : InvL (preloadModel L name now out) := by
  unfold preloadModel
  cases h : lookupE L.cache name with
  | none => exact hI
  | some e =>
    by_cases hs : e.status = Status.idle
    · simpa [hs] using invL_load name none now out hI
    · simpa [hs] using hI

lemma invL_cleanupStep {s : LoaderState} (now : Nat) (n : String) (hI : InvL s) :
    InvL (cleanupStep now s n) := by
  unfold cleanupStep
  cases h : lookupE s.cache n with
  | none => exact hI
  | some e =>
    by_cases hc : e.status = Status.loaded ∧ now - e.lastUsed > s.cacheTtl
    · simpa [hc] using invL_unload n hI
    · simpa [hc] using hI

lemma invL_cleanup_fold (now : Nat) :
    ∀ (names : List String) (s : LoaderState), InvL s →
      InvL (names.foldl (cleanupStep now) s) := by
  intro names
  induction names with
  | nil => intro s hI; simpa using hI
  | cons m rest ih =>
    intro s hI
    exact ih _ (invL_cleanupStep now m hI)

lemma invL_cleanup {L : LoaderState} (now : Nat) (hI : InvL L) :
    InvL (cleanupExpiredModels L now) :=
  invL_cleanup_fold now _ L hI

lemma invL_dispose (L : LoaderState) : InvL (dispose L) := by
  intro p hp
  simp [dispose] at hp

lemma invL_mk (m t : Option Nat) : InvL (mkLoader m t) := by
  intro p hp
  simp [mkLoader] at hp

lemma reachable_inv {L : LoaderState} (h : Reachable L) : InvL L := by
  induction h with
  | init m t => exact invL_mk m t
  | register _ c now ih => exact invL_register c now ih
  | load _ n cfg now out ih => exact invL_load n cfg now out ih
  | preload _ n now out ih => exact invL_preload n now out ih
  | unload _ n ih => exact invL_unload n ih
  | cleanup _ now ih => exact invL_cleanup now ih
  | dispose _ ih => exact invL_dispose _


lemma expireE_idem (ttl now : Nat) (e : Entry) :
    expireE ttl now (expireE ttl now e) = expireE ttl now e := by
  unfold expireE
  by_cases h : e.status = Status.loaded ∧ now - e.lastUsed > ttl
  · simp [h]
  · simp [h]

lemma cleanupStep_ttl (now : Nat) (s : LoaderState) (n : String) :
    (cleanupStep now s n).cacheTtl = s.cacheTtl := by
  unfold cleanupStep
  cases h : lookupE s.cache n with
  | none => rfl
  | some e =>
    by_cases hc : e.status = Status.loaded ∧ now - e.lastUsed > s.cacheTtl
    · simpa [hc] using (unloadModel_fields s n).2.2
    · simp [hc]

lemma lookupE_cleanupStep_self (now : Nat) (s : LoaderState) (n : String) :
    lookupE (cleanupStep now s n).cache n =
      (lookupE s.cache n).map (expireE s.cacheTtl now) := by
  cases h : lookupE s.cache n with
  | none => simp [cleanupStep, h]
  | some e =>
    by_cases hc : e.status = Status.loaded ∧ now - e.lastUsed > s.cacheTtl
    · have h1 : cleanupStep now s n = unloadModel s n := by
        simp [cleanupStep, h, hc]
      have h2 : unloadModel s n =
          modifyEntry s n fun en => { en with model := none, status := Status.idle } := by
        simp [unloadModel, h, hc.1]
      rw [h1, h2]
      have h3 := lookupE_modifyE_self
        (fun en => { en with model := none, status := Status.idle }) h
      simp only [modifyEntry] at h3
      simp [modifyEntry, h3, expireE, hc]
    · have h1 : cleanupStep now s n = s := by
        simp [cleanupStep, h, hc]
      rw [h1, h]
      simp [expireE, hc]

lemma lookupE_cleanupStep_ne (now : Nat) (s : LoaderState) {n m : String}
    (hne : m ≠ n) :
    lookupE (cleanupStep now s n).cache m = lookupE s.cache m := by
  cases h : lookupE s.cache n with
  | none => simp [cleanupStep, h]
  | some e =>
    by_cases hc : e.status = Status.loaded ∧ now - e.lastUsed > s.cacheTtl
    · have h1 : cleanupStep now s n = unloadModel s n := by
        simp [cleanupStep, h, hc]
      have h2 : unloadModel s n =
          modifyEntry s n fun en => { en with model := none, status := Status.idle } := by
        simp [unloadModel, h, hc.1]
      rw [h1, h2]
      simpa [modifyEntry] using @lookupE_modifyE_ne s.cache n m
        (fun en => { en with model := none, status := Status.idle }) hne
    · simp [cleanupStep, h, hc]

lemma cleanup_fold_lookup (now : Nat) :
    ∀ (names : List String) (s : LoaderState) (n : String),
      lookupE (names.foldl (cleanupStep now) s).cache n =
        if n ∈ names then (lookupE s.cache n).map (expireE s.cacheTtl now)
        else lookupE s.cache n := by
  intro names
  induction names with
  | nil => intro s n; simp
  | cons m rest ih =>
    intro s n
    have hstep := ih (cleanupStep now s m) n
    simp only [List.foldl_cons] at *
    rw [hstep, cleanupStep_ttl]
    by_cases hnm : n = m
    · subst hnm
      by_cases hmem : n ∈ rest
      · simp only [hmem, if_pos rfl, List.mem_cons, true_or, if_true]
        rw [lookupE_cleanupStep_self]
        cases lookupE s.cache n with
        | none => simp
        | some e => simp [expireE_idem]
      · simp only [hmem, if_neg, List.mem_cons, or_false]
        rw [lookupE_cleanupStep_self]
        simp
    · rw [lookupE_cleanupStep_ne now s hnm]
      by_cases hmem : n ∈ rest
      · simp [hmem, hnm]
      · simp [hmem, hnm]





/-- C4: when the constructor raises during `load(name)`, the entry's status
becomes `Error`, `loadPromise` (inFlight) is cleared, and the same underlying
error is re-raised unchanged to the caller; the failing call itself invokes
the constructor exactly once (no automatic retry), and a subsequent explicit
`load(name)` re-invokes the constructor — if that succeeds the status
becomes `Loaded` and the resource is returned. -/
theorem claim_C4 (L : LoaderState) (name : String) (cfg cfg2 : Option Config)
    (now now2 ex r : Nat) (e : Entry) (c c2 : Config)
    (he : lookupE L.cache name = some e)
    (hs1 : e.status ≠ Status.loaded) (hs2 : e.status ≠ Status.loading)
    (hc : (match cfg with | some c' => some c' | none => e.config) = some c)
    (hl : c.hasLoad = true)
    (hc2 : (match cfg2 with | some c' => some c' | none => e.config) = some c2)
    (hl2 : c2.hasLoad = true) :
    (loadModel L name cfg now (.error ex)).res = .err (.ext ex) ∧
    (loadModel L name cfg now (.error ex)).invoked = some c.ctorId ∧
    lookupE (loadModel L name cfg now (.error ex)).st.cache name =
      some { e with lastUsed := now, status := Status.error, loadPromise := none } ∧
    (loadModel (loadModel L name cfg now (.error ex)).st name cfg2 now2 (.ok r)).res = .ok r ∧
    (loadModel (loadModel L name cfg now (.error ex)).st name cfg2 now2 (.ok r)).invoked
      = some c2.ctorId ∧
    lookupE (loadModel (loadModel L name cfg now (.error ex)).st
        name cfg2 now2 (.ok r)).st.cache name =
      some { e with lastUsed := now2, model := some r, status := Status.loaded,
                    loadPromise := none } := by
  obtain ⟨h1, h2, h3⟩ := loadModel_ctor_error cfg now ex he hs1 hs2 hc hl
  obtain ⟨h4, h5, h6⟩ := loadModel_ctor_ok cfg2 now2 r h3 (by simp) (by simp) hc2 hl2
  exact ⟨h1, h2, h3, h4, h5, h6⟩

/-- C4 witness: the registered entry `"w"`, failing with error 7 then
succeeding with resource 55. -/
theorem claim_C4_witness :
    (loadModel wReg "w" none 1 (.error 7)).res = .err (.ext 7) ∧
    (loadModel wReg "w" none 1 (.error 7)).invoked = some 4 ∧
    lookupE (loadModel wReg "w" none 1 (.error 7)).st.cache "w" =
      some ⟨none, Status.error, 1, none, some wCfg⟩ ∧
    (loadModel (loadModel wReg "w" none 1 (.error 7)).st "w" none 2 (.ok 55)).res = .ok 55 ∧
    (loadModel (loadModel wReg "w" none 1 (.error 7)).st "w" none 2 (.ok 55)).invoked
      = some 4 ∧
    lookupE (loadModel (loadModel wReg "w" none 1 (.error 7)).st
        "w" none 2 (.ok 55)).st.cache "w" =
      some ⟨some 55, Status.loaded, 2, none, some wCfg⟩ :=
  claim_C4 wReg "w" none none 1 2 7 55 ⟨none, Status.idle, 0, none, some wCfg⟩ wCfg wCfg
    (by decide) (by decide) (by decide) (by decide) (by decide) (by decide) (by decide)

/-- C6: in any reachable state, whenever an entry is `Loaded`, every
further `load(name)` call returns the identical cached resource without
invoking any constructor, and refreshes the entry's `lastUsed` timestamp to
the current time. -/
theorem claim_C6 (L : LoaderState) (hR : Reachable L) (name : String) (e : Entry)
    (cfg : Option Config) (now : Nat) (out : Except Nat Nat)
    (he : lookupE L.cache name = some e) (hs : e.status = Status.loaded) :
    ∃ r, e.model = some r ∧
      (loadModel L name cfg now out).res = .ok r ∧
      (loadModel L name cfg now out).invoked = none ∧
      lookupE (loadModel L name cfg now out).st.cache name =
        some { e with lastUsed := now } := by
  have hOk := invL_lookup (reachable_inv hR) he
  have hm : e.model.isSome = true := hOk.1.mpr hs
  obtain ⟨r, hr⟩ := Option.isSome_iff_exists.mp hm
  refine ⟨r, hr, ?_, ?_, ?_⟩ <;> rw [loadModel_cached cfg now out he hr hs]
  · simpa [modifyEntry] using lookupE_modifyE_self
      (fun en => { en with lastUsed := now }) he

/-- C6 witness: the loaded entry `"w"` holding resource 9, reloaded at
time 2. -/
theorem claim_C6_witness :
    ∃ r, (⟨some 9, Status.loaded, 1, none, some wCfg⟩ : Entry).model = some r ∧
      (loadModel wLoaded "w" none 2 (.ok 0)).res = .ok r ∧
      (loadModel wLoaded "w" none 2 (.ok 0)).invoked = none ∧
      lookupE (loadModel wLoaded "w" none 2 (.ok 0)).st.cache "w" =
        some ⟨some 9, Status.loaded, 2, none, some wCfg⟩ :=
  claim_C6 wLoaded
    (Reachable.load (Reachable.register (Reachable.init none none) wCfg 0) "w" none 1 (.ok 9))
    "w" ⟨some 9, Status.loaded, 1, none, some wCfg⟩ none 2 (.ok 0) (by decide) (by decide)

/-- C7: `cleanupExpired()` transitions to `Idle` (clearing the resource
of) exactly those entries that are `Loaded` with `now - lastUsed` exceeding
the configured TTL; every other entry — `Loaded` but within the TTL, or in
any other state — is left unchanged.  (No entry expires before the call:
entries only change through explicit operations.) -/
theorem claim_C7 (L : LoaderState) (now : Nat) (n : String) (e : Entry)
    (he : lookupE L.cache n = some e) :
    lookupE (cleanupExpiredModels L now).cache n =
      some (if e.status = Status.loaded ∧ now - e.lastUsed > L.cacheTtl
            then { e with model := none, status := Status.idle } else e) := by
  have hmem : n ∈ L.cache.map Prod.fst := lookupE_mem_fst he
  have h := cleanup_fold_lookup now (L.cache.map Prod.fst) L n
  unfold cleanupExpiredModels
  rw [h, if_pos hmem, he]
  rfl

/-- C7 witness: the loaded entry `"m"` with TTL 10 swept at time 100. -/
theorem claim_C7_witness :
    lookupE (cleanupExpiredModels c7L 100).cache "m" =
      some ⟨none, Status.idle, 0, none, none⟩ := by
  have h := claim_C7 c7L 100 "m" ⟨some 5, Status.loaded, 0, none, none⟩ (by decide)
  simpa using h

/-- C8: in every state reachable by any sequence of register, load,
preload, unload, cleanupExpired and dispose operations, an entry's
resource (`model`) field is non-null only when its status is `Loaded`. -/
theorem claim_C8 (L : LoaderState) (hR : Reachable L) (n : String) (e : Entry)
    (he : lookupE L.cache n = some e) (hm : e.model.isSome = true) :
    e.status = Status.loaded :=
  ((reachable_inv hR) _ (lookupE_mem he)).1.mp hm

/-- C8 witness: the reachable loaded entry `"w"` with its resource
present has status `Loaded`. -/
theorem claim_C8_witness :
    (⟨some 9, Status.loaded, 1, none, some wCfg⟩ : Entry).status = Status.loaded :=
  claim_C8 wLoaded
    (Reachable.load (Reachable.register (Reachable.init none none) wCfg 0) "w" none 1 (.ok 9))
    "w" ⟨some 9, Status.loaded, 1, none, some wCfg⟩ (by decide) (by decide)

/-- C9: when `load(name, config)` is given an inline configuration for an
already-registered name, the stored registration is kept unchanged (the
entry's `config` field is untouched), but it is the inline configuration's
constructor — not the stored one — that is invoked for this load attempt. -/
theorem claim_C9 (L : LoaderState) (name : String) (e : Entry) (c : Config)
    (now : Nat) (out : Except Nat Nat)
    (he : lookupE L.cache name = some e)
    (hs1 : e.status ≠ Status.loaded) (hs2 : e.status ≠ Status.loading)
    (hl : c.hasLoad = true) :
    (loadModel L name (some c) now out).invoked = some c.ctorId ∧
    ∃ e', lookupE (loadModel L name (some c) now out).st.cache name = some e' ∧
      e'.config = e.config := by
  cases out with
  | ok r =>
    obtain ⟨h1, h2, h3⟩ := loadModel_ctor_ok (some c) now r he hs1 hs2 rfl hl
    exact ⟨h2, ⟨_, h3, rfl⟩⟩
  | error ex =>
    obtain ⟨h1, h2, h3⟩ := loadModel_ctor_error (some c) now ex he hs1 hs2 rfl hl
    exact ⟨h2, ⟨_, h3, rfl⟩⟩

/-- C9 witness: loading registered `"w"` with an inline configuration
whose constructor id is 99 invokes constructor 99 and keeps the stored
registration (constructor id 4). -/
theorem claim_C9_witness :
    (loadModel wReg "w" (some ⟨"w", 99, true⟩) 1 (.ok 3)).invoked = some 99 ∧
    ∃ e', lookupE (loadModel wReg "w" (some ⟨"w", 99, true⟩) 1 (.ok 3)).st.cache "w"
        = some e' ∧
      e'.config = some wCfg :=
  claim_C9 wReg "w" ⟨none, Status.idle, 0, none, some wCfg⟩ ⟨"w", 99, true⟩ 1 (.ok 3)
    (by decide) (by decide) (by decide) (by decide)
